import Mathlib

/-!
# Verification of the `creatartis-base` statistics bundle and future algebra

Shallow embedding of `src/Statistics.js` (the `Statistics` lookup table keyed
by normalized key-sets) and, where the repository's `Future.js` is not part of
the sources at hand, models of the asynchronous primitives taken from the
design document.

JavaScript values are modelled by the inductive `JSVal`: strings, numbers
(restricted to integers — the claims never exercise fractional values),
booleans, `null`, `undefined`, arrays and plain objects.  An object is its
own-enumerable properties in enumeration order (the special numeric-key
reordering of JS enumeration is not modelled; no claim depends on it).
-/

inductive JSVal : Type where
  | str (s : String)
  | num (n : Int)
  | bool (b : Bool)
  | null
  | undefined
  | arr (elems : List JSVal)
  | obj (fields : List (String × JSVal))

namespace JSVal

/-- JSON string escaping for `JSON.stringify` of a string: the standard
short escapes; other characters are kept verbatim (the claims only use
ordinary printable keys). -/
def jsonEscapeChar (c : Char) : String :=
  if c = '"' then "\\\""
  else if c = '\\' then "\\\\"
  else if c = '\n' then "\\n"
  else if c = '\r' then "\\r"
  else if c = '\t' then "\\t"
  else String.mk [c]

/-- `JSON.stringify` of a JavaScript string. -/
def jsonQuote (s : String) : String :=
  "\"" ++ String.join (s.data.map jsonEscapeChar) ++ "\""

mutual

/-- `JSON.stringify`.  Returns `none` exactly where JS returns the value
`undefined` (stringifying `undefined` itself). -/
def jsonStr : JSVal → Option String
  | .str s => some (jsonQuote s)
  | .num n => some (toString n)
  | .bool b => some (if b then "true" else "false")
  | .null => some "null"
  | .undefined => none
  | .arr l => some ("[" ++ String.intercalate "," (jsonElems l) ++ "]")
  | .obj fs => some ("\x7b" ++ String.intercalate "," (jsonFields fs) ++ "\x7d")

/-- Array elements under `JSON.stringify`: `undefined` becomes `null`. -/
def jsonElems : List JSVal → List String
  | [] => []
  | v :: vs => (jsonStr v).getD "null" :: jsonElems vs

/-- Object fields under `JSON.stringify`: fields whose value stringifies to
`undefined` are dropped. -/
def jsonFields : List (String × JSVal) → List String
  | [] => []
  | (n, v) :: fs =>
    match jsonStr v with
    | some s => (jsonQuote n ++ ":" ++ s) :: jsonFields fs
    | none => jsonFields fs

end

/-- `JSON.stringify(v) + ''`: string concatenation coerces the `undefined`
result to the text `"undefined"`. -/
def jsonConcat (v : JSVal) : String :=
  (jsonStr v).getD "undefined"

mutual

/-- JavaScript `String(v)` conversion, as used by the default comparator of
`Array.prototype.sort`. -/
def jsToString : JSVal → String
  | .str s => s
  | .num n => toString n
  | .bool b => if b then "true" else "false"
  | .null => "null"
  | .undefined => "undefined"
  | .arr l => String.intercalate "," (jsToStringElems l)
  | .obj _ => "[object Object]"

/-- `Array.prototype.join`: `null` and `undefined` elements become empty. -/
def jsToStringElems : List JSVal → List String
  | [] => []
  | v :: vs =>
    (match v with
     | .null => ""
     | .undefined => ""
     | w => jsToString w) :: jsToStringElems vs

end

/-- Whether a value is `undefined` (`Array.prototype.sort` sends those to the
end without comparing them). -/
def isUndefined : JSVal → Bool
  | .undefined => true
  | _ => false

/-- The default sort order of `Array.prototype.sort`: compare the `String()`
conversions. -/
def sortLE (a b : JSVal) : Prop := jsToString a ≤ jsToString b

instance : DecidableRel sortLE := fun a b =>
  inferInstanceAs (Decidable (jsToString a ≤ jsToString b))

instance : IsTotal JSVal sortLE :=
  ⟨fun a b => le_total (jsToString a) (jsToString b)⟩

instance : IsTrans JSVal sortLE :=
  ⟨fun _ _ _ h h' => le_trans h h'⟩

/-- `Array.prototype.sort()` with the default comparator: `undefined`
elements move to the end; the rest are stably sorted by their `String()`
conversion (modern engines guarantee a stable sort, rendered here by a
stable insertion sort). -/
def jsSort (l : List JSVal) : List JSVal :=
  List.insertionSort sortLE (l.filter fun v => !isUndefined v)
    ++ l.filter (fun v => isUndefined v)

/-- JavaScript falsiness (`!obj` in the source).  `NaN` is not modelled. -/
def jsFalsy : JSVal → Bool
  | .str s => s.isEmpty
  | .num n => n == 0
  | .bool b => !b
  | .null => true
  | .undefined => true
  | .arr _ => false
  | .obj _ => false

/-- First-match association lookup: JS property access `keys[n]` on a plain
object (a missing name yields `undefined`). -/
def lookupField (fs : List (String × JSVal)) (n : String) : JSVal :=
  match fs with
  | [] => .undefined
  | (m, v) :: rest => if m = n then v else lookupField rest n

end JSVal

open JSVal

/-- `Statistics.__id__(keys)` from `src/Statistics.js`:
  * an array argument: `JSON.stringify(keys.slice().sort())` — a copy of the
    array is sorted with the default comparator and stringified;
  * a (non-null, non-array) object argument: the own-enumerable names are
    sorted and each is rendered `JSON.stringify(n) + ':' + JSON.stringify(keys[n])`,
    joined with `','`;
  * any other value: `JSON.stringify(keys) + ''`. -/
def __id__ : JSVal → String
  | .arr l => jsonConcat (.arr (jsSort l))
  | .obj fs =>
    String.intercalate ","
      ((List.insertionSort (· ≤ ·) (fs.map Prod.fst)).map fun n =>
        jsonQuote n ++ ":" ++ jsonConcat (lookupField fs n))
  | .str s => jsonConcat (.str s)
  | .num n => jsonConcat (.num n)
  | .bool b => jsonConcat (.bool b)
  | .null => jsonConcat .null
  | .undefined => jsonConcat .undefined

/-!
## Per-key accumulators and the `Statistics` bundle

The repository's `Statistic.js` is not among the sources at hand.
Modelled from the spec: the bundle "forwards to per-key accumulator
objects", so a `Statistic` is rendered as a call-recording accumulator —
each update method appends a record of its own name and arguments and, like
the bundle's chaining style, returns the updated accumulator.
-/

/-- A record of one update-method invocation on a per-key accumulator. -/
inductive SCall : Type where
  | add (value data : JSVal)
  | gain (value factor data : JSVal)
  | addAll (values data : JSVal)
  | gainAll (values factor data : JSVal)
  | startTime (timestamp : JSVal)
  | addTime (data : JSVal)
  | addTick (data : JSVal)

/-- Modelled from the spec: a per-key accumulator object, holding the `keys`
it was created for and the sequence of update calls it received. -/
structure Statistic : Type where
  keys : JSVal
  log : List SCall

def Statistic.add (s : Statistic) (value data : JSVal) : Statistic :=
  { s with log := s.log ++ [.add value data] }

def Statistic.gain (s : Statistic) (value factor data : JSVal) : Statistic :=
  { s with log := s.log ++ [.gain value factor data] }

def Statistic.addAll (s : Statistic) (values data : JSVal) : Statistic :=
  { s with log := s.log ++ [.addAll values data] }

def Statistic.gainAll (s : Statistic) (values factor data : JSVal) : Statistic :=
  { s with log := s.log ++ [.gainAll values factor data] }

def Statistic.startTime (s : Statistic) (timestamp : JSVal) : Statistic :=
  { s with log := s.log ++ [.startTime timestamp] }

def Statistic.addTime (s : Statistic) (data : JSVal) : Statistic :=
  { s with log := s.log ++ [.addTime data] }

def Statistic.addTick (s : Statistic) (data : JSVal) : Statistic :=
  { s with log := s.log ++ [.addTick data] }

/-- `Statistics` from `src/Statistics.js`: the constructor sets
`this.__stats__ = {}`; the table is a plain object, rendered as an
association list in property-insertion order with unique names. -/
structure Statistics : Type where
  __stats__ : List (String × Statistic)

/-- Property read `this.__stats__[id]` (first match; `undefined` if absent). -/
def lookupStat : List (String × Statistic) → String → Option Statistic
  | [], _ => none
  | (m, s) :: rest, id => if m = id then some s else lookupStat rest id

/-- Property write `this.__stats__[id] = s`: overwrite an existing property
in place, or append a fresh one in insertion order. -/
def setStat : List (String × Statistic) → String → Statistic → List (String × Statistic)
  | [], id, s => [(id, s)]
  | (m, t) :: rest, id, s =>
    if m = id then (id, s) :: rest else (m, t) :: setStat rest id s

/-- `stat(keys)` from `src/Statistics.js`:
`var id = this.__id__(keys); return this.__stats__[id] || (this.__stats__[id] = new Statistic(keys));`
State-passing rendering: the result pairs the returned accumulator with the
bundle after the call. -/
def Statistics.stat (st : Statistics) (keys : JSVal) : Statistic × Statistics :=
  let id := __id__ keys
  match lookupStat st.__stats__ id with
  | some s => (s, st)
  | none =>
    let s : Statistic := ⟨keys, []⟩
    (s, ⟨setStat st.__stats__ id s⟩)

/-!
In JavaScript the table aliases the accumulator object, so a method call on
`this.stat(keys)` mutates the stored entry.  The state-passing rendering of
each shortcut therefore writes the updated accumulator back under its
identifier, and returns the method's result (the updated accumulator).
-/

/-- `add(keys, value, data)`: `return this.stat(keys).add(value, data);` -/
def Statistics.add (st : Statistics) (keys value data : JSVal) :
    Statistic × Statistics :=
  let (s, st1) := st.stat keys
  let s2 := s.add value data
  (s2, ⟨setStat st1.__stats__ (__id__ keys) s2⟩)

/-- `gain(keys, value, factor, data)`: `return this.stat(keys).gain(value, factor, data);` -/
def Statistics.gain (st : Statistics) (keys value factor data : JSVal) :
    Statistic × Statistics :=
  let (s, st1) := st.stat keys
  let s2 := s.gain value factor data
  (s2, ⟨setStat st1.__stats__ (__id__ keys) s2⟩)

/-- `addAll(keys, values, data)`: `return this.stat(keys).addAll(values, data);` -/
def Statistics.addAll (st : Statistics) (keys values data : JSVal) :
    Statistic × Statistics :=
  let (s, st1) := st.stat keys
  let s2 := s.addAll values data
  (s2, ⟨setStat st1.__stats__ (__id__ keys) s2⟩)

/-- `gainAll(keys, values, factor, data)`: the source body is
`return this.stat(keys).addAll(values, data);` — it calls `addAll`, not
`gainAll`, and never uses `factor`. -/
def Statistics.gainAll (st : Statistics) (keys values factor data : JSVal) :
    Statistic × Statistics :=
  let (s, st1) := st.stat keys
  let s2 := s.addAll values data
  (s2, ⟨setStat st1.__stats__ (__id__ keys) s2⟩)

/-- `startTime(keys, timestamp)`: `return this.stat(keys).startTime(timestamp);` -/
def Statistics.startTime (st : Statistics) (keys timestamp : JSVal) :
    Statistic × Statistics :=
  let (s, st1) := st.stat keys
  let s2 := s.startTime timestamp
  (s2, ⟨setStat st1.__stats__ (__id__ keys) s2⟩)

/-- `addTime(keys, data)`: `return this.stat(keys).addTime(data);` -/
def Statistics.addTime (st : Statistics) (keys data : JSVal) :
    Statistic × Statistics :=
  let (s, st1) := st.stat keys
  let s2 := s.addTime data
  (s2, ⟨setStat st1.__stats__ (__id__ keys) s2⟩)

/-- `addTick(keys, data)`: `return this.stat(keys).addTick(data);` -/
def Statistics.addTick (st : Statistics) (keys data : JSVal) :
    Statistic × Statistics :=
  let (s, st1) := st.stat keys
  let s2 := s.addTick data
  (s2, ⟨setStat st1.__stats__ (__id__ keys) s2⟩)

/-- Formalisation of the claim's wording "forwards to the same-named method
of the per-key accumulator object `stat(keys)`, passing the remaining
arguments through unchanged, and returns that method's result": look the
accumulator up (creating it if needed), apply the method, store the updated
accumulator back under the identifier (JS aliasing) and return the method's
result. -/
def forwardToStat (st : Statistics) (keys : JSVal) (m : Statistic → Statistic) :
    Statistic × Statistics :=
  let (s, st1) := st.stat keys
  let s2 := m s
  (s2, ⟨setStat st1.__stats__ (__id__ keys) s2⟩)

/-- The own-enumerable properties visited by `for (var name in obj)`:
object fields in insertion order (prototype properties and the numeric-key
reordering of JS enumeration are not modelled), array and string indices,
nothing for other primitives. -/
def jsEnumEntries : JSVal → List (String × JSVal)
  | .obj fs => fs
  | .arr l => l.enum.map fun p => (toString p.1, p.2)
  | .str s => s.data.enum.map fun p => (toString p.1, .str (String.mk [p.2]))
  | _ => []

/-- The loop body of `addObject`: for each member, arrays go through
`addAll(name, obj[name], data)` and every other value through
`add(name, obj[name], data)`. -/
def addMembers : Statistics → List (String × JSVal) → JSVal → Statistics
  | st, [], _ => st
  | st, (name, v) :: rest, data =>
    match v with
    | .arr l => addMembers (st.addAll (.str name) (.arr l) data).2 rest data
    | w => addMembers (st.add (.str name) w data).2 rest data

/-- `addObject(obj, data)` from `src/Statistics.js`:
`raiseIf(!obj, "Cannot add object " + JSON.stringify(obj) + ".");` then the
member loop, then `return this;`.  The raise is rendered as `Except.error`
with the exact message; it fires before any table update. -/
def Statistics.addObject (st : Statistics) (obj data : JSVal) :
    Except String Statistics :=
  if jsFalsy obj then
    .error ("Cannot add object " ++ jsonConcat obj ++ ".")
  else
    .ok (addMembers st (jsEnumEntries obj) data)

/-!
## Store-passing rendering of `__id__` (mutation claims)

To state that `__id__` does not mutate its argument, the array branch is
re-rendered over an explicit store of arrays and objects, giving each
JavaScript primitive its real effect: `slice()` allocates a fresh copy,
`sort()` sorts its receiver in place, `JSON.stringify` only reads.
-/

structure Store : Type where
  arrs : List (List JSVal)
  objs : List (List (String × JSVal))

/-- Dereference an array. -/
def Store.readArr (st : Store) (r : Nat) : List JSVal :=
  st.arrs.getD r []

/-- In-place update of an array (what `sort()` does to its receiver). -/
def Store.writeArr (st : Store) (r : Nat) (a : List JSVal) : Store :=
  ⟨st.arrs.set r a, st.objs⟩

/-- Allocate a fresh array (what `slice()` does), returning its reference. -/
def Store.allocArr (st : Store) (a : List JSVal) : Store × Nat :=
  (⟨st.arrs ++ [a], st.objs⟩, st.arrs.length)

/-- Dereference an object. -/
def Store.readObj (st : Store) (r : Nat) : List (String × JSVal) :=
  st.objs.getD r []

/-- The array branch of `__id__`, store-passing:
`JSON.stringify(keys.slice().sort())` — `slice()` allocates a copy, `sort()`
sorts that copy in place, and the stringification reads the copy. -/
def idArrStore (st : Store) (r : Nat) : Store × String :=
  let alloc := st.allocArr (st.readArr r)
  let copy := alloc.2
  let st2 := alloc.1.writeArr copy (jsSort (alloc.1.readArr copy))
  (st2, jsonConcat (.arr (st2.readArr copy)))

/-- The object branch of `__id__`, store-passing: `Object.keys`, `sort` of
the fresh names array, `map` and `join` build new values and never write to
the argument object, so the store passes through untouched. -/
def idObjStore (st : Store) (r : Nat) : Store × String :=
  (st, __id__ (.obj (st.readObj r)))

/-!
## The Future state machine and its combinators

The repository's `Future.js` is not among the sources at hand; the
definitions below are modelled from the design document's data model and
component design (§3, §4.1–4.2).
-/

/-- Modelled from the spec: a registered continuation pair
"(on-success handler, on-failure handler)".  `γ` is the observable outcome
of invoking a handler. -/
structure Callback (α ε γ : Type) : Type where
  onFulfilled : α → γ
  onRejected : ε → γ

/-- Modelled from the spec (`Future.js` is missing): the single-assignment
state machine — `PENDING` with its ordered continuation list, or settled
with a value or a reason. -/
inductive Future (α ε γ : Type) : Type where
  | pending (callbacks : List (Callback α ε γ))
  | fulfilled (value : α)
  | rejected (reason : ε)

/-- Modelled from the spec: `fulfill(value)` settles a pending Future,
draining its continuation list (each on-success handler runs once, in
registration order); on an already-settled Future it is a no-op and invokes
nothing (§7 recommends the idempotent policy, and §8 demands no observable
effect).  The result pairs the Future after the call with the observable
invocations the call caused. -/
def Future.fulfill : Future α ε γ → α → Future α ε γ × List γ
  | .pending cbs, v => (.fulfilled v, cbs.map fun cb => cb.onFulfilled v)
  | f, _ => (f, [])

/-- Modelled from the spec: `fail(reason)`, symmetrically. -/
def Future.fail : Future α ε γ → ε → Future α ε γ × List γ
  | .pending cbs, r => (.rejected r, cbs.map fun cb => cb.onRejected r)
  | f, _ => (f, [])

/-- Whether the Future has left the `PENDING` state. -/
def Future.isSettled : Future α ε γ → Bool
  | .pending _ => false
  | _ => true

/-- Modelled from the spec: the settlement state `all(futures)` derives from
the current states of its inputs — fulfilled with the values in input order
once every input is fulfilled, rejected with a rejecting input's reason,
pending otherwise; the empty input is fulfilled with the empty sequence.
(The temporal "first to reject" choice is fixed as the earliest rejected
input in list order.) -/
def allNow : List (Future α ε γ) → Future (List α) ε γ
  | [] => .fulfilled []
  | f :: fs =>
    match f, allNow fs with
    | .rejected r, _ => .rejected r
    | _, .rejected r => .rejected r
    | .fulfilled v, .fulfilled vs => .fulfilled (v :: vs)
    | _, _ => .pending []

/-- Modelled from the spec: one deterministic run of
`retry(action, attempts, delayPolicy)`.  Attempt `i` of the action is the
outcome `action i` (its Future's eventual settlement, `Except.error` for a
failure); the delay policy only spaces attempts out and is irrelevant to the
settled outcome.  `rem` counts the attempts remaining after the current one,
so `retryRun action i rem` performs up to `rem + 1` attempts starting at
attempt `i`.  The result pairs the overall outcome with the number of
invocations of the action. -/
def retryRun (action : Nat → Except ε α) : Nat → Nat → Except ε α × Nat
  | i, 0 => (action i, 1)
  | i, rem + 1 =>
    match action i with
    | .ok v => (.ok v, 1)
    | .error _ =>
      let p := retryRun action (i + 1) rem
      (p.1, p.2 + 1)

/-- Modelled from the spec: `retry(action, attempts)` for `attempts ≥ 1`
performs up to `attempts` invocations starting at attempt `0`. -/
def retry (action : Nat → Except ε α) (attempts : Nat) : Except ε α × Nat :=
  retryRun action 0 (attempts - 1)

/-- Modelled from the spec: `invoke(fn, ...args)` calls `fn` inside a
try/catch; a synchronous throw (`Except.error`) becomes a rejected Future,
a normal return a fulfilled one. -/
def invoke (fn : List JSVal → Except ε β) (args : List JSVal) : Future β ε γ :=
  match fn args with
  | .ok v => .fulfilled v
  | .error e => .rejected e

/-- Whether an attempt outcome is a failure. -/
def isErr : Except ε α → Bool
  | .error _ => true
  | .ok _ => false

/-!
## Helper lemmas
-/

theorem getD_append_left {α : Type} (l l' : List α) (n : Nat) (d : α)
    (h : n < l.length) : (l ++ l').getD n d = l.getD n d := by
  induction l generalizing n with
  | nil => simp at h
  | cons a t ih =>
    cases n with
    | zero => rfl
    | succ m => simpa using ih m (by simpa using h)

theorem set_append_len {α : Type} (l : List α) (a x : α) :
    (l ++ [a]).set l.length x = l ++ [x] := by
  induction l with
  | nil => rfl
  | cons b t ih => simpa using ih

theorem getD_append_len {α : Type} (l : List α) (x : α) (d : α) :
    (l ++ [x]).getD l.length d = x := by
  induction l with
  | nil => rfl
  | cons b t ih => simpa using ih

theorem eq_replicate_undefined (l : List JSVal) (h : ∀ v ∈ l, v = JSVal.undefined) :
    l = List.replicate l.length JSVal.undefined :=
  List.eq_replicate_iff.mpr ⟨rfl, h⟩

theorem isUndef_eq (v : JSVal) (h : isUndefined v = true) : v = JSVal.undefined := by
  cases v <;> simp [isUndefined] at h ⊢

theorem isErr_exists {ε α : Type} (x : Except ε α) (h : isErr x = true) :
    ∃ e, x = .error e := by
  cases x with
  | error e => exact ⟨e, rfl⟩
  | ok v => simp [isErr] at h

/-- Two lists that are permutations of each other, both sorted for the
`String()` comparison, and whose members have pairwise distinct (or
coinciding on equal elements) string conversions, are equal.  This is
`eq_of_perm_of_sorted` with antisymmetry assumed only on the members. -/
theorem sorted_perm_eq_on :
    ∀ {l₁ l₂ : List JSVal}, l₁.Perm l₂ →
      (∀ x ∈ l₁, ∀ y ∈ l₁, jsToString x = jsToString y → x = y) →
      l₁.Sorted sortLE → l₂.Sorted sortLE → l₁ = l₂
  | [], l₂, hp, _, _, _ => hp.nil_eq
  | a :: t₁, [], hp, _, _, _ => absurd hp.length_eq (by simp)
  | a :: t₁, b :: t₂, hp, hanti, hs₁, hs₂ => by
    have hmem_a : a ∈ b :: t₂ := hp.subset (List.mem_cons_self a t₁)
    have hmem_b : b ∈ a :: t₁ := hp.symm.subset (List.mem_cons_self b t₂)
    have hs₁' := List.sorted_cons.mp hs₁
    have hs₂' := List.sorted_cons.mp hs₂
    have hab : a = b := by
      rcases List.mem_cons.mp hmem_b with hb | hb
      · exact hb.symm
      · rcases List.mem_cons.mp hmem_a with ha | ha
        · exact ha
        · exact hanti a (List.mem_cons_self a t₁) b (List.mem_cons_of_mem a hb)
            (le_antisymm (hs₁'.1 b hb) (hs₂'.1 a ha))
    subst hab
    have hp' : t₁.Perm t₂ := hp.cons_inv
    have hanti' : ∀ x ∈ t₁, ∀ y ∈ t₁, jsToString x = jsToString y → x = y :=
      fun x hx y hy => hanti x (List.mem_cons_of_mem a hx) y (List.mem_cons_of_mem a hy)
    rw [sorted_perm_eq_on hp' hanti' hs₁'.2 hs₂'.2]

/-- `Array.prototype.sort()` sends permuted inputs to the same list provided
the members' `String()` conversions distinguish distinct members. -/
theorem jsSort_perm_eq {l₁ l₂ : List JSVal} (hp : l₁.Perm l₂)
    (hanti : ∀ x ∈ l₁, ∀ y ∈ l₁, jsToString x = jsToString y → x = y) :
    jsSort l₁ = jsSort l₂ := by
  unfold jsSort
  have hdef : (l₁.filter fun v => !isUndefined v).Perm (l₂.filter fun v => !isUndefined v) :=
    hp.filter _
  have hund : (l₁.filter fun v => isUndefined v).Perm (l₂.filter fun v => isUndefined v) :=
    hp.filter _
  have hsorted :
      (List.insertionSort sortLE (l₁.filter fun v => !isUndefined v))
        = List.insertionSort sortLE (l₂.filter fun v => !isUndefined v) := by
    refine sorted_perm_eq_on
      (((List.perm_insertionSort _ _).trans hdef).trans
        (List.perm_insertionSort _ _).symm)
      ?_ (List.sorted_insertionSort _ _) (List.sorted_insertionSort _ _)
    intro x hx y hy
    have hx' : x ∈ l₁ :=
      List.mem_of_mem_filter ((List.mem_insertionSort _).mp hx)
    have hy' : y ∈ l₁ :=
      List.mem_of_mem_filter ((List.mem_insertionSort _).mp hy)
    exact hanti x hx' y hy'
  have hund_eq :
      (l₁.filter fun v => isUndefined v) = (l₂.filter fun v => isUndefined v) := by
    have h₁ := eq_replicate_undefined (l₁.filter fun v => isUndefined v)
      (fun v hv => isUndef_eq v (List.of_mem_filter hv))
    have h₂ := eq_replicate_undefined (l₂.filter fun v => isUndefined v)
      (fun v hv => isUndef_eq v (List.of_mem_filter hv))
    rw [h₁, h₂, hund.length_eq]
  rw [hsorted, hund_eq]

/-- `keys[n]` reads the same value from permuted field lists when the names
are unique. -/
theorem lookupField_perm :
    ∀ {fs₁ fs₂ : List (String × JSVal)}, fs₁.Perm fs₂ →
      (fs₁.map Prod.fst).Nodup → ∀ n, lookupField fs₁ n = lookupField fs₂ n := by
  intro fs₁ fs₂ hp
  induction hp with
  | nil => intro _ n; rfl
  | cons x p ih =>
    intro hnd n
    obtain ⟨m, v⟩ := x
    simp only [lookupField]
    by_cases hm : m = n
    · simp [hm]
    · simp only [hm, if_false]
      refine ih ?_ n
      simp only [List.map_cons, List.nodup_cons] at hnd
      exact hnd.2
  | swap x y l =>
    intro hnd n
    obtain ⟨m₁, v₁⟩ := x
    obtain ⟨m₂, v₂⟩ := y
    have hne : m₂ ≠ m₁ := by
      simp only [List.map_cons, List.nodup_cons, List.mem_cons] at hnd
      exact fun h => hnd.1 (Or.inl h)
    simp only [lookupField]
    by_cases h₂ : m₂ = n
    · have h₁ : m₁ ≠ n := fun h => hne (h₂.trans h.symm)
      simp [h₂, h₁]
    · by_cases h₁ : m₁ = n <;> simp [h₁, h₂]
  | trans p₁ p₂ ih₁ ih₂ =>
    intro hnd n
    rw [ih₁ hnd n]
    exact ih₂ (((p₁.map Prod.fst).nodup_iff).mp hnd) n

theorem lookupStat_setStat_self :
    ∀ (tbl : List (String × Statistic)) (id : String) (s : Statistic),
      lookupStat (setStat tbl id s) id = some s
  | [], id, s => by simp [setStat, lookupStat]
  | (m, t) :: rest, id, s => by
    by_cases h : m = id
    · simp [setStat, lookupStat, h]
    · simp only [setStat, h, if_false, lookupStat]
      exact lookupStat_setStat_self rest id s

theorem setStat_of_lookup_none :
    ∀ (tbl : List (String × Statistic)) (id : String) (s : Statistic),
      lookupStat tbl id = none → setStat tbl id s = tbl ++ [(id, s)]
  | [], _, _, _ => rfl
  | (m, t) :: rest, id, s, h => by
    by_cases hm : m = id
    · simp [lookupStat, hm] at h
    · simp only [setStat, hm, if_false, List.cons_append, List.cons.injEq, true_and]
      exact setStat_of_lookup_none rest id s (by simpa [lookupStat, hm] using h)

theorem retryRun_count {ε α : Type} (a : Nat → Except ε α) :
    ∀ (rem i : Nat), (retryRun a i rem).2 ≤ rem + 1 := by
  intro rem
  induction rem with
  | zero => intro i; simp [retryRun]
  | succ r ih =>
    intro i
    simp only [retryRun]
    cases a i with
    | ok v => simp
    | error e =>
      simpa using Nat.succ_le_succ (ih (i + 1))

theorem retryRun_success {ε α : Type} (a : Nat → Except ε α) :
    ∀ (k rem i : Nat) (v : α), (∀ j, j < k → isErr (a (i + j)) = true) →
      a (i + k) = .ok v → k ≤ rem → retryRun a i rem = (.ok v, k + 1) := by
  intro k
  induction k with
  | zero =>
    intro rem i v _ hk _
    cases rem with
    | zero => simp only [retryRun]; rw [show i + 0 = i from rfl] at hk; rw [hk]
    | succ r =>
      simp only [retryRun]
      rw [show i + 0 = i from rfl] at hk
      rw [hk]
  | succ k ih =>
    intro rem i v hfail hk hle
    obtain ⟨e, he⟩ := isErr_exists _ (hfail 0 (Nat.succ_pos k))
    rw [Nat.add_zero] at he
    cases rem with
    | zero => exact absurd hle (by omega)
    | succ r =>
      simp only [retryRun, he]
      have := ih r (i + 1) v
        (fun j hj => by
          have := hfail (j + 1) (Nat.succ_lt_succ hj)
          rwa [show i + (j + 1) = i + 1 + j by omega] at this)
        (by rwa [show i + 1 + k = i + (k + 1) by omega])
        (by omega)
      rw [this]

theorem retryRun_allfail {ε α : Type} (a : Nat → Except ε α) :
    ∀ (rem i : Nat), (∀ j, j ≤ rem → isErr (a (i + j)) = true) →
      retryRun a i rem = (a (i + rem), rem + 1) := by
  intro rem
  induction rem with
  | zero => intro i _; rfl
  | succ r ih =>
    intro i hfail
    obtain ⟨e, he⟩ := isErr_exists _ (hfail 0 (Nat.zero_le _))
    rw [Nat.add_zero] at he
    simp only [retryRun, he]
    have := ih (i + 1) (fun j hj => by
      have := hfail (j + 1) (Nat.succ_le_succ hj)
      rwa [show i + (j + 1) = i + 1 + j by omega] at this)
    rw [this, show i + 1 + r = i + (r + 1) by omega]

/-!
## The claims
-/

/-- C1: for every Future, the transition out of `PENDING` occurs at most
once — after any first `fulfill`/`fail` call the Future is settled, and any
further settlement call leaves the stored value or reason unchanged and has
no observable effect on already-registered continuations (it invokes
nothing). -/
theorem c1_settlement_at_most_once {α ε γ : Type} :
    ∀ (f : Future α ε γ) (v w : α) (r q : ε),
      ((f.fulfill v).1.isSettled = true) ∧
      ((f.fail r).1.isSettled = true) ∧
      ((f.fulfill v).1.fulfill w = ((f.fulfill v).1, [])) ∧
      ((f.fulfill v).1.fail q = ((f.fulfill v).1, [])) ∧
      ((f.fail r).1.fulfill w = ((f.fail r).1, [])) ∧
      ((f.fail r).1.fail q = ((f.fail r).1, [])) := by
  intro f v w r q
  cases f <;> simp [Future.fulfill, Future.fail, Future.isSettled]

/-- C2 (counterexample): `__id__` is not invariant under all permutations of
an array argument.  `[1, '1']` and `['1', 1]` are permutations of the same
elements, but the default sort comparator compares `String()` conversions
(both `"1"`), leaves either order in place, and `JSON.stringify` then tells
the orders apart. -/
theorem c2_counterexample :
    ([JSVal.num 1, JSVal.str "1"]).Perm [JSVal.str "1", JSVal.num 1] ∧
    __id__ (.arr [JSVal.num 1, JSVal.str "1"])
      ≠ __id__ (.arr [JSVal.str "1", JSVal.num 1]) := by
  refine ⟨List.Perm.swap _ _ _, ?_⟩
  have ht : (toString (1 : Int)) = "1" := rfl
  have hs₁ : jsSort [JSVal.num 1, JSVal.str "1"] = [JSVal.num 1, JSVal.str "1"] := by
    simp [jsSort, isUndefined, List.insertionSort, List.orderedInsert, sortLE,
      jsToString, ht]
  have hs₂ : jsSort [JSVal.str "1", JSVal.num 1] = [JSVal.str "1", JSVal.num 1] := by
    simp [jsSort, isUndefined, List.insertionSort, List.orderedInsert, sortLE,
      jsToString, ht]
  show jsonConcat (.arr (jsSort [JSVal.num 1, JSVal.str "1"]))
      ≠ jsonConcat (.arr (jsSort [JSVal.str "1", JSVal.num 1]))
  rw [hs₁, hs₂]
  simp only [jsonConcat, jsonStr, jsonElems]
  decide

/-- C2 (amended): `__id__` depends only on the normalized key-set, provided
the `String()` conversions of an array's elements distinguish distinct
elements: permuted arrays whose members have pairwise injective string
conversions get the same identifier; plain objects with the same
name-to-value mapping get the same identifier regardless of enumeration
order; and equal identifiers make `stat` resolve to the same table entry. -/
theorem c2_id_normalized_keys :
    (∀ l₁ l₂ : List JSVal, l₁.Perm l₂ →
      (∀ x ∈ l₁, ∀ y ∈ l₁, jsToString x = jsToString y → x = y) →
      __id__ (.arr l₁) = __id__ (.arr l₂)) ∧
    (∀ fs₁ fs₂ : List (String × JSVal), fs₁.Perm fs₂ →
      (fs₁.map Prod.fst).Nodup →
      __id__ (.obj fs₁) = __id__ (.obj fs₂)) ∧
    (∀ (st : Statistics) (k₁ k₂ : JSVal) (s : Statistic),
      __id__ k₁ = __id__ k₂ →
      lookupStat st.__stats__ (__id__ k₁) = some s →
      st.stat k₁ = (s, st) ∧ st.stat k₂ = (s, st)) := by
  refine ⟨?_, ?_, ?_⟩
  · intro l₁ l₂ hp hanti
    show jsonConcat (.arr (jsSort l₁)) = jsonConcat (.arr (jsSort l₂))
    rw [jsSort_perm_eq hp hanti]
  · intro fs₁ fs₂ hp hnd
    have hnames : List.insertionSort (· ≤ ·) (fs₁.map Prod.fst)
        = List.insertionSort (· ≤ ·) (fs₂.map Prod.fst) :=
      List.eq_of_perm_of_sorted
        ((List.perm_insertionSort _ _).trans ((hp.map Prod.fst).trans
          (List.perm_insertionSort _ _).symm))
        (List.sorted_insertionSort _ _) (List.sorted_insertionSort _ _)
    show String.intercalate ","
        ((List.insertionSort (· ≤ ·) (fs₁.map Prod.fst)).map fun n =>
          jsonQuote n ++ ":" ++ jsonConcat (lookupField fs₁ n))
      = String.intercalate ","
        ((List.insertionSort (· ≤ ·) (fs₂.map Prod.fst)).map fun n =>
          jsonQuote n ++ ":" ++ jsonConcat (lookupField fs₂ n))
    rw [← hnames]
    exact congrArg (String.intercalate ",")
      (List.map_congr_left fun n _ => by rw [lookupField_perm hp hnd n])
  · intro st k₁ k₂ s heq hlook
    constructor
    · simp [Statistics.stat, hlook]
    · simp [Statistics.stat, ← heq, hlook]

/-- C2 (witness): permuted string arrays with distinct elements, and a
reordered object, get the same identifier. -/
theorem c2_witness :
    __id__ (.arr [JSVal.str "b", JSVal.str "a"])
        = __id__ (.arr [JSVal.str "a", JSVal.str "b"]) ∧
    __id__ (.obj [("b", JSVal.num 1), ("a", JSVal.num 2)])
        = __id__ (.obj [("a", JSVal.num 2), ("b", JSVal.num 1)]) ∧
    (Statistics.mk [(__id__ (.str "x"), ⟨.str "x", []⟩)]).stat (.str "x")
        = (⟨.str "x", []⟩, ⟨[(__id__ (.str "x"), ⟨.str "x", []⟩)]⟩) := by
  refine ⟨c2_id_normalized_keys.1 _ _ (List.Perm.swap _ _ _) ?_,
          c2_id_normalized_keys.2.1 _ _ (List.Perm.swap _ _ _) (by decide),
          (c2_id_normalized_keys.2.2 ⟨[(__id__ (.str "x"), ⟨.str "x", []⟩)]⟩
            (.str "x") (.str "x") ⟨.str "x", []⟩ rfl
            (by simp [lookupStat])).1⟩
  intro x hx y hy hxy
  simp only [List.mem_cons, List.not_mem_nil, or_false] at hx hy
  rcases hx with rfl | rfl <;> rcases hy with rfl | rfl <;>
    first
      | rfl
      | (simp only [jsToString] at hxy; exact absurd hxy (by decide))

/-- C3 (counterexample): `gainAll` does not forward to the same-named method
of `stat(keys)`: at this input the source records an `addAll(values, data)`
call on the accumulator and discards `factor`, while same-named forwarding
would record `gainAll(values, factor, data)`. -/
theorem c3_counterexample :
    Statistics.gainAll ⟨[]⟩ (.str "x") (.arr [.num 1]) (.num 2) .null
      ≠ forwardToStat ⟨[]⟩ (.str "x")
          (fun s => s.gainAll (.arr [.num 1]) (.num 2) .null) := by
  intro h
  have h1 : (Statistics.gainAll ⟨[]⟩ (.str "x") (.arr [.num 1]) (.num 2) .null).1.log
      = [SCall.addAll (.arr [.num 1]) .null] := rfl
  have h2 : (forwardToStat ⟨[]⟩ (.str "x")
      (fun s => s.gainAll (.arr [.num 1]) (.num 2) .null)).1.log
      = [SCall.gainAll (.arr [.num 1]) (.num 2) .null] := rfl
  rw [h, h2] at h1
  simp at h1

/-- C3 (amended): each of `add`, `gain`, `addAll`, `startTime`, `addTime`
and `addTick` forwards to the same-named method of the per-key accumulator
`stat(keys)`, passing the remaining arguments through unchanged and
returning that method's result; `gainAll` instead forwards to `addAll`,
passing only `values` and `data` and discarding `factor`. -/
theorem c3_shortcuts_forward :
    ∀ (st : Statistics) (k v f d vs ts : JSVal),
      Statistics.add st k v d = forwardToStat st k (fun s => s.add v d) ∧
      Statistics.gain st k v f d = forwardToStat st k (fun s => s.gain v f d) ∧
      Statistics.addAll st k vs d = forwardToStat st k (fun s => s.addAll vs d) ∧
      Statistics.startTime st k ts = forwardToStat st k (fun s => s.startTime ts) ∧
      Statistics.addTime st k d = forwardToStat st k (fun s => s.addTime d) ∧
      Statistics.addTick st k d = forwardToStat st k (fun s => s.addTick d) ∧
      Statistics.gainAll st k vs f d = forwardToStat st k (fun s => s.addAll vs d) :=
  fun _ _ _ _ _ _ _ => ⟨rfl, rfl, rfl, rfl, rfl, rfl, rfl⟩

/-- C4: when the table has no entry for `__id__(k)`, `stat(k)` creates a
fresh `Statistic` for `k`, stores it under `__id__(k)` at the end of the
table, and every later call with any `k'` of the same identifier returns
that stored object and leaves the bundle unchanged. -/
theorem c4_stat_idempotent :
    ∀ (st : Statistics) (k : JSVal),
      lookupStat st.__stats__ (__id__ k) = none →
      (st.stat k).1 = ⟨k, []⟩ ∧
      (st.stat k).2.__stats__
        = st.__stats__ ++ [(__id__ k, (⟨k, []⟩ : Statistic))] ∧
      (∀ k', __id__ k' = __id__ k →
        (st.stat k).2.stat k' = ((st.stat k).1, (st.stat k).2)) := by
  intro st k hnone
  have hstat : st.stat k
      = (⟨k, []⟩, ⟨setStat st.__stats__ (__id__ k) ⟨k, []⟩⟩) := by
    simp [Statistics.stat, hnone]
  refine ⟨by rw [hstat], ?_, ?_⟩
  · rw [hstat]
    exact setStat_of_lookup_none _ _ _ hnone
  · intro k' hk
    rw [hstat]
    simp only [Statistics.stat, hk]
    rw [lookupStat_setStat_self]

/-- C4 (witness): on the empty bundle, `stat('x')` creates the accumulator
for `'x'`. -/
theorem c4_witness :
    lookupStat (Statistics.mk []).__stats__ (__id__ (.str "x")) = none ∧
    ((Statistics.mk []).stat (.str "x")).1 = ⟨.str "x", []⟩ ∧
    ((Statistics.mk []).stat (.str "x")).2.stat (.str "x")
      = (((Statistics.mk []).stat (.str "x")).1,
         ((Statistics.mk []).stat (.str "x")).2) :=
  ⟨rfl, (c4_stat_idempotent ⟨[]⟩ (.str "x") rfl).1,
   (c4_stat_idempotent ⟨[]⟩ (.str "x") rfl).2.2 (.str "x") rfl⟩

/-- C5: `all` applied to the empty input sequence is immediately fulfilled
with the empty sequence. -/
theorem c5_all_empty {α ε γ : Type} :
    allNow ([] : List (Future α ε γ)) = .fulfilled [] := rfl

/-- C6: `retry(action, attempts)` invokes the action at most `attempts`
times; it fulfills with the first successful attempt's value (having made
exactly that attempt's number of invocations); and once every attempt has
failed it rejects with the failure reason of the last attempt. -/
theorem c6_retry {ε α : Type} :
    ∀ (a : Nat → Except ε α) (t : Nat), 1 ≤ t →
      ((retry a t).2 ≤ t) ∧
      (∀ k v, (∀ j, j < k → isErr (a j) = true) → a k = .ok v → k < t →
        retry a t = (.ok v, k + 1)) ∧
      ((∀ j, j < t → isErr (a j) = true) → retry a t = (a (t - 1), t)) := by
  intro a t ht
  refine ⟨?_, ?_, ?_⟩
  · have h := retryRun_count a (t - 1) 0
    unfold retry
    omega
  · intro k v hfail hk hkt
    unfold retry
    have h := retryRun_success a k (t - 1) 0 v
      (fun j hj => by simpa using hfail j hj) (by simpa using hk) (by omega)
    exact h
  · intro hfail
    unfold retry
    have h := retryRun_allfail a (t - 1) 0
      (fun j hj => by simpa using hfail j (by omega))
    rw [h]
    simp only [Nat.zero_add]
    rw [Nat.sub_add_cancel ht]

/-- C6 (witness): an action failing twice then succeeding, retried three
times, fulfills with the third attempt's value after exactly three
invocations. -/
theorem c6_witness :
    retry (fun j => if j < 2 then Except.error (toString j)
                    else Except.ok (42 : Nat)) 3
      = (.ok 42, 3) := by
  refine (c6_retry (fun j => if j < 2 then Except.error (toString j)
      else Except.ok (42 : Nat)) 3 (by decide)).2.1 2 42 ?_ rfl (by decide)
  intro j hj
  interval_cases j <;> rfl

/-- C7: if the wrapped callable throws synchronously, `invoke` returns a
rejected Future carrying that failure instead of raising it. -/
theorem c7_invoke_rejects {ε β γ : Type} :
    ∀ (fn : List JSVal → Except ε β) (args : List JSVal) (e : ε),
      fn args = .error e → (invoke fn args : Future β ε γ) = .rejected e := by
  intro fn args e h
  simp [invoke, h]

/-- C7 (witness): a callable that throws yields a rejected Future. -/
theorem c7_witness :
    (invoke (fun _ => Except.error "boom") [] : Future Nat String Unit)
      = .rejected "boom" :=
  c7_invoke_rejects _ [] "boom" rfl

/-- C8: `gainAll(keys, values, factor, data)` ignores `factor` entirely and
is observably identical to `addAll(keys, values, data)`: both invoke
`stat(keys).addAll(values, data)`. -/
theorem c8_gainAll_ignores_factor :
    ∀ (st : Statistics) (k vs f d : JSVal),
      Statistics.gainAll st k vs f d = Statistics.addAll st k vs d ∧
      Statistics.gainAll st k vs f d
        = forwardToStat st k (fun s => s.addAll vs d) :=
  fun _ _ _ _ _ => ⟨rfl, rfl⟩

/-- C9: `addObject(obj, data)` raises exactly when `obj` is falsy — with the
message built from `JSON.stringify(obj)`, before any table update — and for
every truthy `obj` it processes each enumerable member (arrays via `addAll`,
other values via `add`) and returns the bundle itself. -/
theorem c9_addObject :
    ∀ (st : Statistics) (obj data : JSVal),
      ((∃ m, st.addObject obj data = .error m) ↔ jsFalsy obj = true) ∧
      (jsFalsy obj = true →
        st.addObject obj data
          = .error ("Cannot add object " ++ jsonConcat obj ++ ".")) ∧
      (jsFalsy obj = false →
        st.addObject obj data = .ok (addMembers st (jsEnumEntries obj) data)) := by
  intro st obj data
  by_cases h : jsFalsy obj <;> simp [Statistics.addObject, h]

/-- C9 (witness): `null` is rejected with the stringified message; a proper
object is processed member-wise. -/
theorem c9_witness :
    (Statistics.mk []).addObject .null .undefined
      = .error ("Cannot add object " ++ jsonConcat .null ++ ".") ∧
    ("Cannot add object " ++ jsonConcat JSVal.null ++ ".")
      = "Cannot add object null." ∧
    (Statistics.mk []).addObject (.obj [("a", JSVal.num 1)]) .undefined
      = .ok (addMembers ⟨[]⟩ [("a", JSVal.num 1)] .undefined) :=
  ⟨(c9_addObject ⟨[]⟩ .null .undefined).2.1 rfl,
   by simp only [jsonConcat, jsonStr]; decide,
   (c9_addObject ⟨[]⟩ (.obj [("a", JSVal.num 1)]) .undefined).2.2 rfl⟩

/-- C10: `__id__` never mutates its argument: in the store-passing rendering
of the array branch, the argument array reads back unchanged after the call
(the freshly allocated copy, not the original, holds the sorted contents),
the produced identifier agrees with the pure rendering, and the object
branch passes the store through untouched. -/
theorem c10_id_no_mutation :
    ∀ (st : Store) (r : Nat), r < st.arrs.length →
      ((idArrStore st r).1.readArr r = st.readArr r) ∧
      ((idArrStore st r).1.readArr st.arrs.length = jsSort (st.readArr r)) ∧
      ((idArrStore st r).2 = __id__ (.arr (st.readArr r))) ∧
      (∀ q, idObjStore st q = (st, __id__ (.obj (st.readObj q)))) := by
  intro st r hr
  have h1 : (idArrStore st r).1
      = ⟨st.arrs ++ [jsSort (st.readArr r)], st.objs⟩ := by
    simp only [idArrStore, Store.allocArr, Store.writeArr, Store.readArr]
    rw [getD_append_len, set_append_len]
  have h2 : (idArrStore st r).1.readArr st.arrs.length
      = jsSort (st.readArr r) := by
    rw [h1]
    show (st.arrs ++ [jsSort (st.readArr r)]).getD st.arrs.length [] = _
    rw [getD_append_len]
  refine ⟨?_, h2, ?_, fun q => rfl⟩
  · rw [h1]
    show (st.arrs ++ [jsSort (st.readArr r)]).getD r [] = st.readArr r
    rw [getD_append_left _ _ _ _ hr]
    rfl
  · show jsonConcat (.arr ((idArrStore st r).1.readArr st.arrs.length))
      = __id__ (.arr (st.readArr r))
    rw [h2]
    rfl

/-- C10 (witness): identifying a two-element array leaves it unsorted in the
store. -/
theorem c10_witness :
    (idArrStore ⟨[[JSVal.str "b", JSVal.str "a"]], []⟩ 0).1.readArr 0
      = [JSVal.str "b", JSVal.str "a"] :=
  (c10_id_no_mutation ⟨[[JSVal.str "b", JSVal.str "a"]], []⟩ 0 (by decide)).1
